import Mathlib

/-!
Verification of the bundled-server core of `gh-mcp` (Go) against its
natural-language specification. Go code is shallowly embedded: byte slices
and Go strings become `List Nat` (one element per byte), `int64` becomes
`Int`, fallible functions return `Except GoError`, and the filesystem /
process syscalls consumed by a function are passed in explicitly (either as
a current-state value for the sequential, race-free scenarios the claims
describe, or as per-attempt oracles where the code loops over syscalls).
Standard-library collaborators (gzip/tar/zip container decoding,
`crypto/sha256`, `encoding/hex`) are embedded as executable Lean functions;
archive containers are modelled at the decoded-entry-list level, which is
the abstraction boundary the extraction code itself works at.
-/

namespace GhMcp

/-! ## Bytes and Go strings -/

/-- A Go string viewed as its byte sequence (all literals used here are
ASCII, so code points and bytes coincide). -/
def goStr (s : String) : List Nat :=
  s.toList.map Char.toNat

/-- The errors of the Go sources, by sentinel identity. Wrapped context
strings (`fmt.Errorf` payloads) are dropped; the claims only depend on which
sentinel an error matches. `osError` stands for any wrapped miscellaneous
OS/stdlib failure that is not one of the named sentinels. -/
inductive GoError where
  | bundledChecksumMismatch
  | bundledExecutableNotFound
  | bundledExecutableTooLarge
  | bundledExecutableInvalidSize
  | bundledTempParentInsecure
  | bundledTempParentStateInvalid
  | tempDirNameAttemptsExhausted
  | serverNonZeroExit (code : Int)
  | waitFailure
  | invalidServerEnvValue
  | osError
  deriving DecidableEq, Repr

/-! ## SHA-256 (`crypto/sha256`, FIPS 180-4) over byte lists

Machine words are `Nat` kept below `2^32` by masking with `0xffffffff`
(equivalently `% 2^32`) after every operation that can overflow. -/

/-- 32-bit mask. -/
def mask32 : Nat := 0xffffffff

/-- Rotate a 32-bit word right by `n`. -/
def rotr32 (n x : Nat) : Nat :=
  ((x >>> n) ||| (x <<< (32 - n))) &&& mask32

/-- SHA-256 Ch(x,y,z) = (x ∧ y) ⊕ (¬x ∧ z); 32-bit complement is xor with
the all-ones mask. -/
def sha256Ch (x y z : Nat) : Nat :=
  (x &&& y) ^^^ ((x ^^^ mask32) &&& z)

/-- SHA-256 Maj(x,y,z). -/
def sha256Maj (x y z : Nat) : Nat :=
  (x &&& y) ^^^ (x &&& z) ^^^ (y &&& z)

/-- SHA-256 Σ0. -/
def sha256BigSigma0 (x : Nat) : Nat :=
  rotr32 2 x ^^^ rotr32 13 x ^^^ rotr32 22 x

/-- SHA-256 Σ1. -/
def sha256BigSigma1 (x : Nat) : Nat :=
  rotr32 6 x ^^^ rotr32 11 x ^^^ rotr32 25 x

/-- SHA-256 σ0. -/
def sha256SmallSigma0 (x : Nat) : Nat :=
  rotr32 7 x ^^^ rotr32 18 x ^^^ (x >>> 3)

/-- SHA-256 σ1. -/
def sha256SmallSigma1 (x : Nat) : Nat :=
  rotr32 17 x ^^^ rotr32 19 x ^^^ (x >>> 10)

/-- The 64 SHA-256 round constants (FIPS 180-4 §4.2.2), written in
decimal. -/
def sha256K : List Nat :=
  [1116352408, 1899447441, 3049323471, 3921009573, 961987163, 1508970993,
   2453635748, 2870763221, 3624381080, 310598401, 607225278, 1426881987,
   1925078388, 2162078206, 2614888103, 3248222580, 3835390401, 4022224774,
   264347078, 604807628, 770255983, 1249150122, 1555081692, 1996064986,
   2554220882, 2821834349, 2952996808, 3210313671, 3336571891, 3584528711,
   113926993, 338241895, 666307205, 773529912, 1294757372, 1396182291,
   1695183700, 1986661051, 2177026350, 2456956037, 2730485921, 2820302411,
   3259730800, 3345764771, 3516065817, 3600352804, 4094571909, 275423344,
   430227734, 506948616, 659060556, 883997877, 958139571, 1322822218,
   1537002063, 1747873779, 1955562222, 2024104815, 2227730452, 2361852424,
   2428436474, 2756734187, 3204031479, 3329325298]

/-- The initial SHA-256 hash state H⁽⁰⁾ (FIPS 180-4 §5.3.3), written in
decimal. -/
def sha256H0 : List Nat :=
  [1779033703, 3144134277, 1013904242, 2773480762,
   1359893119, 2600822924, 528734635, 1541459225]

/-- `k` big-endian bytes of `v` (most significant first). -/
def beBytes : Nat → Nat → List Nat
  | 0, _ => []
  | k + 1, v => ((v >>> (8 * k)) &&& 0xff) :: beBytes k v

/-- SHA-256 padding: append `0x80`, zero bytes to 56 mod 64, then the
bit length as 8 big-endian bytes. -/
def sha256Pad (msg : List Nat) : List Nat :=
  let padZeros := (64 - (msg.length + 9) % 64) % 64
  msg ++ [0x80] ++ List.replicate padZeros 0 ++ beBytes 8 (8 * msg.length)

/-- Group a byte list into big-endian 32-bit words, four bytes per word. -/
def bytesToWords32 : List Nat → List Nat
  | b0 :: b1 :: b2 :: b3 :: rest =>
      ((b0 <<< 24) ||| (b1 <<< 16) ||| (b2 <<< 8) ||| b3) :: bytesToWords32 rest
  | _ => []

/-- Split a byte list into consecutive 64-byte blocks. -/
def chunks64 (l : List Nat) : List (List Nat) :=
  if l = [] then []
  else l.take 64 :: chunks64 (l.drop 64)
termination_by l.length
decreasing_by
  rename_i h
  have : 0 < l.length := List.length_pos.mpr h
  simp only [List.length_drop]
  omega

/-- One extension step of the SHA-256 message schedule: append
W[t] = σ1(W[t−2]) + W[t−7] + σ0(W[t−15]) + W[t−16] (mod 2³²). -/
def sha256ScheduleStep (ws : List Nat) : List Nat :=
  ws ++ [(sha256SmallSigma1 (ws.getD (ws.length - 2) 0)
          + ws.getD (ws.length - 7) 0
          + sha256SmallSigma0 (ws.getD (ws.length - 15) 0)
          + ws.getD (ws.length - 16) 0) % 4294967296]

/-- Full 64-entry message schedule from the 16 words of one block. -/
def sha256Schedule (ws : List Nat) : List Nat :=
  sha256ScheduleStep^[48] ws

/-- One SHA-256 compression round on the working state `[a,b,c,d,e,f,g,h]`
with round constant `k` and schedule word `w`. -/
def sha256Round (s : List Nat) (kw : Nat × Nat) : List Nat :=
  match s with
  | [a, b, c, d, e, f, g, h] =>
      let t1 := (h + sha256BigSigma1 e + sha256Ch e f g + kw.1 + kw.2) % 4294967296
      let t2 := (sha256BigSigma0 a + sha256Maj a b c) % 4294967296
      [(t1 + t2) % 4294967296, a, b, c, (d + t1) % 4294967296, e, f, g]
  | other => other

/-- Compress one 64-byte block into the running hash state. -/
def sha256CompressBlock (h : List Nat) (block : List Nat) : List Nat :=
  let ws := sha256Schedule (bytesToWords32 block)
  let s := (sha256K.zip ws).foldl sha256Round h
  List.zipWith (fun x y => (x + y) % 4294967296) h s

/-- SHA-256 digest (32 bytes) of a byte sequence; `sha256.Sum256`. -/
def sha256Sum256 (msg : List Nat) : List Nat :=
  ((chunks64 (sha256Pad msg)).foldl sha256CompressBlock sha256H0).flatMap
    (beBytes 4)

/-! ## Hex encoding and case-insensitive comparison -/

/-- Lowercase hex digit for a nibble; `encoding/hex`'s `hextable` lookup. -/
def hexDigitChar (n : Nat) : Nat :=
  if n < 10 then 48 + n else 87 + n

/-- `hex.EncodeToString`: two lowercase hex digits per byte, high nibble
first. -/
def hexEncodeToString (bs : List Nat) : List Nat :=
  bs.flatMap (fun b => [hexDigitChar ((b >>> 4) % 16), hexDigitChar (b &&& 15)])

/-- ASCII lowercasing of one byte (uppercase letters shifted by 32, all
other bytes unchanged). -/
def asciiToLower (c : Nat) : Nat :=
  if 65 ≤ c ∧ c ≤ 90 then c + 32 else c

/-- `strings.EqualFold`, specialised to the domain on which
`verifyBundledArchiveChecksum` uses it: the first argument is always a
lowercase hex digest (bytes in `0-9a-f`). On that domain Go's Unicode
simple-case folding coincides with per-byte ASCII case-insensitive
equality, because the fold orbits of `0-9a-f` contain only their ASCII
upper/lower forms (the special folds — Kelvin sign → `k`, long s → `s`,
Å → `å` — never target a hex digit), so no non-ASCII rune of the second
argument can ever compare equal to a digest byte. -/
def goEqualFold : List Nat → List Nat → Bool
  | [], [] => true
  | a :: s, b :: t => asciiToLower a == asciiToLower b && goEqualFold s t
  | _, _ => false

/-- `verifyBundledArchiveChecksum` (extract.go): SHA-256 the archive
bytes, hex-encode, compare case-insensitively against the expected digest
string; mismatch yields the `errBundledChecksumMismatch` sentinel. -/
def verifyBundledArchiveChecksum (archive : List Nat) (expectedSHA256 : List Nat) :
    Except GoError Unit :=
  let actual := hexEncodeToString (sha256Sum256 archive)
  if !goEqualFold actual expectedSHA256 then
    .error .bundledChecksumMismatch
  else
    .ok ()

/-! ### Supporting lemmas for C1 -/

/-- Hex digits are never ASCII uppercase letters, so ASCII lowercasing
fixes them. -/
theorem asciiToLower_hexDigitChar (n : Nat) :
    asciiToLower (hexDigitChar n) = hexDigitChar n := by
  unfold asciiToLower hexDigitChar
  split <;> split <;> omega

/-- Every byte of a hex encoding is fixed by ASCII lowercasing. -/
theorem asciiToLower_fixes_hexEncode (bs : List Nat) :
    (hexEncodeToString bs).map asciiToLower = hexEncodeToString bs := by
  induction bs with
  | nil => rfl
  | cons b rest ih =>
      simp [hexEncodeToString, List.flatMap_cons, asciiToLower_hexDigitChar] at *
      exact ih

/-- `goEqualFold` decides equality of ASCII-lowercased byte strings. -/
theorem goEqualFold_eq_iff (s t : List Nat) :
    goEqualFold s t = true ↔ s.map asciiToLower = t.map asciiToLower := by
  induction s generalizing t with
  | nil =>
      cases t <;> simp [goEqualFold]
  | cons a s ih =>
      cases t with
      | nil => simp [goEqualFold]
      | cons b t =>
          simp [goEqualFold, ih]

/-- C1. `verifyBundledArchiveChecksum(B, D)` succeeds exactly when `D` is,
up to ASCII case, the lowercase hex SHA-256 digest of `B`, and on mismatch
it fails with the checksum-mismatch sentinel: the function equals the
case-normalising comparison against the digest. -/
theorem verifyBundledArchiveChecksum_spec (archive expected : List Nat) :
    verifyBundledArchiveChecksum archive expected =
      (if expected.map asciiToLower = hexEncodeToString (sha256Sum256 archive) then
        .ok ()
      else
        .error .bundledChecksumMismatch) := by
  unfold verifyBundledArchiveChecksum
  by_cases h : (expected.map asciiToLower = hexEncodeToString (sha256Sum256 archive))
  · have : goEqualFold (hexEncodeToString (sha256Sum256 archive)) expected = true := by
      rw [goEqualFold_eq_iff, asciiToLower_fixes_hexEncode, h]
    simp [this, h]
  · have : goEqualFold (hexEncodeToString (sha256Sum256 archive)) expected = false := by
      rw [Bool.eq_false_iff, Ne, goEqualFold_eq_iff, asciiToLower_fixes_hexEncode]
      exact fun hh => h hh.symm
    simp [this, h]

/-! ## Bounded archive extraction (extract.go)

The gzip/tar/zip containers are decoded by the Go standard library; the
extraction code iterates decoded entries in container order. The embedding
therefore works on the decoded entry list: each entry carries its path (a
byte string using `/` separators), whether its mode is a regular file, its
declared size from the archive metadata, and the byte stream the container
yields for it (which an adversarial container may make disagree with the
declared size). Writing the output file is modelled by returning the bytes
written (`O_TRUNC` makes the file exactly those bytes on success). -/

/-- `maxBundledExecutableBytes = 64 << 20` (64 MiB). -/
def maxBundledExecutableBytes : Nat := 64 <<< 20

/-- A decoded tar entry: `header.Name`, `header.FileInfo().Mode().IsRegular()`,
`header.Size` (an `int64`), and the entry's byte stream. -/
structure TarEntry where
  name : List Nat
  regular : Bool
  size : Int
  content : List Nat

/-- A decoded zip entry: `File.Name`, the regular-file bit of its mode
(present in zip metadata, whether or not the code consults it),
`File.UncompressedSize64` (a `uint64`), and the decompressed byte stream. -/
structure ZipEntry where
  name : List Nat
  regular : Bool
  size : Nat
  content : List Nat

/-- Go `path.Base`: empty path is `"."`; otherwise strip trailing slashes,
take the part after the last slash, and an all-slash path is `"/"`. -/
def pathBase (p : List Nat) : List Nat :=
  if p = [] then goStr "."
  else
    let p1 := (p.reverse.dropWhile (fun c => c == 47)).reverse
    let p2 := (p1.reverse.takeWhile (fun c => c != 47)).reverse
    if p2 = [] then goStr "/" else p2

/-- `validateBundledExecutableSize`: reject a declared size that is negative
or above the 64 MiB ceiling. -/
def validateBundledExecutableSize (size : Int) : Except GoError Unit :=
  if size < 0 ∨ size > (maxBundledExecutableBytes : Int) then
    .error .bundledExecutableInvalidSize
  else
    .ok ()

/-- `validateZipExecutableSize`: a `uint64` size above `math.MaxInt64` is
invalid; otherwise defer to the `int64` check. -/
def validateZipExecutableSize (size : Nat) : Except GoError Unit :=
  if size > 9223372036854775807 then
    .error .bundledExecutableInvalidSize
  else
    validateBundledExecutableSize (size : Int)

/-- The byte count `io.Copy` reports when copying the entry stream through
`io.LimitReader(src, maxBundledExecutableBytes+1)`: the stream length capped
at the limit-plus-one window. -/
def copiedBundledByteCount (src : List Nat) : Nat :=
  min src.length (maxBundledExecutableBytes + 1)

/-- `copyBundledExecutableWithLimit`: copy at most `ceiling+1` bytes from
the entry stream into the output file; if the copied count exceeds the
ceiling, report the too-large sentinel. On success the value is the bytes
now in the output file. -/
def copyBundledExecutableWithLimit (src : List Nat) : Except GoError (List Nat) :=
  let written := src.take (maxBundledExecutableBytes + 1)
  if copiedBundledByteCount src > maxBundledExecutableBytes then
    .error .bundledExecutableTooLarge
  else
    .ok written

/-- `extractTarGzExecutable`: walk tar entries in order; skip non-regular
entries, then skip base-name mismatches; on the first match validate the
declared size, then stream-copy under the limit. An exhausted archive
yields the not-found sentinel. -/
def extractTarGzExecutable (entries : List TarEntry) (executableName : List Nat) :
    Except GoError (List Nat) :=
  match entries with
  | [] => .error .bundledExecutableNotFound
  | e :: rest =>
      if !e.regular then
        extractTarGzExecutable rest executableName
      else if pathBase e.name ≠ executableName then
        extractTarGzExecutable rest executableName
      else
        match validateBundledExecutableSize e.size with
        | .error err => .error err
        | .ok _ => copyBundledExecutableWithLimit e.content

/-- `extractZipExecutable`: walk zip entries in order; skip base-name
mismatches; on the first match validate the declared size, then stream-copy
under the limit. No check of the entry's mode is performed. -/
def extractZipExecutable (entries : List ZipEntry) (executableName : List Nat) :
    Except GoError (List Nat) :=
  match entries with
  | [] => .error .bundledExecutableNotFound
  | e :: rest =>
      if pathBase e.name ≠ executableName then
        extractZipExecutable rest executableName
      else
        match validateZipExecutableSize e.size with
        | .error err => .error err
        | .ok _ => copyBundledExecutableWithLimit e.content

/-- C3, counterexample. A zip entry that is not a regular file (a directory
entry `github-mcp-server/`) is nevertheless selected by the zip extractor —
the base name matches after `path.Base` strips the trailing slash, and no
regular-file check exists on the zip path — so extraction does not report
not-found, refuting "entries that are not regular files are always skipped
in both formats". -/
theorem extractZip_selects_non_regular_entry :
    extractZipExecutable
        [⟨goStr "github-mcp-server/", false, 0, []⟩] (goStr "github-mcp-server") =
      .ok [] ∧
    extractZipExecutable
        [⟨goStr "github-mcp-server/", false, 0, []⟩] (goStr "github-mcp-server") ≠
      .error .bundledExecutableNotFound := by
  refine ⟨rfl, fun h => Except.noConfusion h⟩

/-- C3, amended. Entry selection: the tar extractor selects an entry exactly
when it is a regular file and its base name matches, skipping to the rest of
the archive otherwise; the zip extractor selects exactly on base-name
equality, with no regular-file condition, so non-regular zip entries are
processed rather than skipped. -/
theorem extract_entry_selection (executableName : List Nat) :
    (∀ (e : TarEntry) (rest : List TarEntry),
      extractTarGzExecutable (e :: rest) executableName =
        if e.regular = true ∧ pathBase e.name = executableName then
          match validateBundledExecutableSize e.size with
          | .error err => .error err
          | .ok _ => copyBundledExecutableWithLimit e.content
        else
          extractTarGzExecutable rest executableName) ∧
    (∀ (e : ZipEntry) (rest : List ZipEntry),
      extractZipExecutable (e :: rest) executableName =
        if pathBase e.name = executableName then
          match validateZipExecutableSize e.size with
          | .error err => .error err
          | .ok _ => copyBundledExecutableWithLimit e.content
        else
          extractZipExecutable rest executableName) := by
  constructor
  · intro e rest
    by_cases hr : e.regular
    · by_cases hb : pathBase e.name = executableName
      · simp [extractTarGzExecutable, hr, hb]
      · simp [extractTarGzExecutable, hr, hb]
    · have hr' : e.regular = false := Bool.eq_false_iff.mpr hr
      simp [extractTarGzExecutable, hr', hr]
  · intro e rest
    by_cases hb : pathBase e.name = executableName
    · simp [extractZipExecutable, hb]
    · simp [extractZipExecutable, hb]

/-- C4. The streaming copy reads at most `64 MiB + 1` bytes from the entry
stream regardless of any declared size, fails with the too-large sentinel
exactly when the copied count exceeds 64 MiB, and on success the output file
holds the complete entry stream — never a truncated partial file. -/
theorem copyBundledExecutableWithLimit_spec (src : List Nat) :
    copiedBundledByteCount src ≤ maxBundledExecutableBytes + 1 ∧
    copyBundledExecutableWithLimit src =
      (if maxBundledExecutableBytes < src.length then
        .error .bundledExecutableTooLarge
      else
        .ok src) := by
  constructor
  · exact Nat.min_le_right _ _
  · unfold copyBundledExecutableWithLimit copiedBundledByteCount
    by_cases h : maxBundledExecutableBytes < src.length
    · have : min src.length (maxBundledExecutableBytes + 1) > maxBundledExecutableBytes := by
        omega
      simp [h, this]
    · have hle : src.length ≤ maxBundledExecutableBytes := by omega
      have : ¬ (min src.length (maxBundledExecutableBytes + 1) > maxBundledExecutableBytes) := by
        omega
      simp [h, this, List.take_of_length_le (by omega : src.length ≤ maxBundledExecutableBytes + 1)]

/-! ## Secure temp parent directory (tempdir.go, tempdir_parent_unix.go)

The filesystem object at the parent path is modelled as a `FileInfo` value:
the symlink bit and directory bit of its mode, its owner uid, its
permission bits, and an identity token standing for the device+inode pair
that `os.SameFile` compares. The claims' scenarios are sequential (no
concurrent attacker mutates the path between the syscalls of one
function), so `ensureSecureTempParentDir` is embedded as a function of the
node currently at the path: `Lstat`, `Open`+`Stat` and the post-chmod
re-stats all observe that node, and `Chmod` on the held handle is the one
mutation, threaded through explicitly. `MkdirAll` on the already-existing
node of the scenarios is a no-op. For the cleanup-time re-validation, which
the spec's adversary *can* race, the observations (`Lstat` of the path, a
fresh `Stat` of the held handle) are explicit inputs instead. -/

/-- The slice of `os.FileInfo` this code consults: mode symlink bit, mode
directory bit, owner uid (`fileInfoUID`), permission bits
(`Mode().Perm()`), and a device+inode identity token (`os.SameFile`). -/
structure FileInfo where
  isSymlink : Bool
  isDir : Bool
  uid : Nat
  perm : Nat
  ident : Nat
  deriving DecidableEq, Repr

/-- `os.SameFile`: device+inode identity. -/
def sameFile (a b : FileInfo) : Bool :=
  a.ident == b.ident

/-- `tempParentDirState`: the captured parent metadata and whether an open
directory handle is held (`info`/`handle` fields; the Go nil checks become
`Option`/`Bool`). -/
structure TempParentDirState where
  info : Option FileInfo
  hasHandle : Bool
  deriving DecidableEq, Repr

/-- `validateTempParentDirInfo`: the parent must not be a symbolic link and
must be a directory; both violations are the insecure-parent sentinel. -/
def validateTempParentDirInfo (info : FileInfo) : Except GoError Unit :=
  if info.isSymlink then .error .bundledTempParentInsecure
  else if !info.isDir then .error .bundledTempParentInsecure
  else .ok ()

/-- `ensureSecureUnixTempParentDir`: reject a parent not owned by the
effective uid; if group/other permission bits are clear, keep the current
info; otherwise `Chmod(0o700)` the held handle, re-stat it, re-validate,
and reject if the bits are still broad. Returns the (possibly tightened)
handle info, which in the sequential model is also the node's new state. -/
def ensureSecureUnixTempParentDir (euid : Nat) (info : FileInfo) :
    Except GoError FileInfo :=
  if info.uid ≠ euid then .error .bundledTempParentInsecure
  else if info.perm &&& 0o077 == 0 then .ok info
  else
    let tightenedInfo := { info with perm := 0o700 }
    match validateTempParentDirInfo tightenedInfo with
    | .error e => .error e
    | .ok _ =>
        if tightenedInfo.perm &&& 0o077 ≠ 0 then .error .bundledTempParentInsecure
        else .ok tightenedInfo

/-- `ensureSecureTempParentDir` in the sequential (race-free) world whose
parent path currently holds `node0`: `MkdirAll` is a no-op on the existing
node, `Lstat` and the opened handle observe `node0`, identity is
re-compared after the unix hardening step, and the captured state plus the
node's final value are returned. -/
def ensureSecureTempParentDir (euid : Nat) (node0 : FileInfo) :
    Except GoError (TempParentDirState × FileInfo) :=
  let info := node0
  match validateTempParentDirInfo info with
  | .error e => .error e
  | .ok _ =>
      let handleInfo := node0
      match validateTempParentDirInfo handleInfo with
      | .error e => .error e
      | .ok _ =>
          if !sameFile info handleInfo then .error .bundledTempParentInsecure
          else
            match ensureSecureUnixTempParentDir euid handleInfo with
            | .error e => .error e
            | .ok tightenedInfo =>
                let latestPathInfo := tightenedInfo
                match validateTempParentDirInfo latestPathInfo with
                | .error e => .error e
                | .ok _ =>
                    if !sameFile tightenedInfo latestPathInfo then
                      .error .bundledTempParentInsecure
                    else
                      .ok ({ info := some tightenedInfo, hasHandle := true },
                           tightenedInfo)

/-- What the cleanup-time re-validation observes: the fresh `os.Lstat` of
the parent path and, when a handle is held, a fresh `Stat` of that handle.
Failures of either syscall are wrapped errors. -/
structure FsObservation where
  lstat : Except GoError FileInfo
  handleStat : Except GoError FileInfo

/-- `verifyTempParentDirUnchanged`: missing captured state is the
state-invalid sentinel; then `Lstat` the path, validate it, take the
baseline from a fresh handle `Stat` when a handle is held (else the
captured info), and require device+inode identity, failing with the
insecure-parent sentinel on mismatch. -/
def verifyTempParentDirUnchanged (expected : Option TempParentDirState)
    (obs : FsObservation) : Except GoError Unit :=
  match expected with
  | none => .error .bundledTempParentStateInvalid
  | some st =>
      match st.info with
      | none => .error .bundledTempParentStateInvalid
      | some baselineInfo =>
          match obs.lstat with
          | .error e => .error e
          | .ok current =>
              match validateTempParentDirInfo current with
              | .error e => .error e
              | .ok _ =>
                  let baselineE := if st.hasHandle then obs.handleStat
                                   else .ok baselineInfo
                  match baselineE with
                  | .error e => .error e
                  | .ok baseline =>
                      if !sameFile baseline current then
                        .error .bundledTempParentInsecure
                      else .ok ()

/-- C5. Establishing the secure parent on a caller-owned directory of mode
`0o770` succeeds and tightens the node to mode `0o700` (identity, owner and
directory-ness unchanged, handle held); establishing it on a path holding a
symbolic link fails with the insecure-parent sentinel whatever the link's
other attributes are. -/
theorem ensureSecureTempParentDir_spec (euid ident : Nat) :
    ensureSecureTempParentDir euid ⟨false, true, euid, 0o770, ident⟩ =
      .ok ({ info := some ⟨false, true, euid, 0o700, ident⟩, hasHandle := true },
           ⟨false, true, euid, 0o700, ident⟩) ∧
    ∀ (isDir : Bool) (uid perm ident' : Nat),
      ensureSecureTempParentDir euid ⟨true, isDir, uid, perm, ident'⟩ =
        .error .bundledTempParentInsecure := by
  constructor
  · simp [ensureSecureTempParentDir, validateTempParentDirInfo,
      ensureSecureUnixTempParentDir, sameFile,
      (by decide : (448 : Nat) &&& 63 = 0), (by decide : (504 : Nat) &&& 63 = 56)]
  · intro isDir uid perm ident'
    simp [ensureSecureTempParentDir, validateTempParentDirInfo]

/-! ## Staging directory creation beneath the verified parent
(tempdir_parent_unix.go) -/

/-- `tempDirNameAttempts = 256`. -/
def tempDirNameAttempts : Nat := 256

/-- Outcome of one `unix.Mkdirat` call: success, name collision (`EEXIST`),
or any other OS error. -/
inductive MkdirResult where
  | ok
  | eexist
  | fail
  deriving DecidableEq, Repr

/-- Per-attempt oracles for the creation loop: the fresh random name drawn
at attempt `i` (`randomTempDirName`, whose `crypto/rand` read is modelled
as succeeding), the `Mkdirat` outcome at attempt `i`, and what the
post-creation re-validation observes after a successful attempt `i`. -/
structure CreateDirWorld where
  name : Nat → List Nat
  mkdirat : Nat → MkdirResult
  obsAfter : Nat → FsObservation

/-- `filepath.Join parent name` for the already-clean paths this code
builds. -/
def goFilepathJoin (a b : List Nat) : List Nat :=
  a ++ goStr "/" ++ b

/-- The retry loop of `createTempDirInVerifiedParent`, at attempt `i` with
`fuel` of the 256 attempts remaining. Alongside the result it returns the
directories the loop leaves on disk: a successful attempt's directory,
except that a failed post-creation re-validation `Unlinkat`s it again. -/
def createTempDirLoop (parentDir : List Nat) (ps : Option TempParentDirState)
    (w : CreateDirWorld) : Nat → Nat → Except GoError (List Nat) × List (List Nat)
  | _, 0 => (.error .tempDirNameAttemptsExhausted, [])
  | i, fuel + 1 =>
      match w.mkdirat i with
      | .eexist => createTempDirLoop parentDir ps w (i + 1) fuel
      | .fail => (.error .osError, [])
      | .ok =>
          match verifyTempParentDirUnchanged ps (w.obsAfter i) with
          | .error e => (.error e, [])
          | .ok _ => (.ok (goFilepathJoin parentDir (w.name i)), [w.name i])

/-- `createTempDirInVerifiedParent`: reject a missing state or handle with
the state-invalid sentinel, then run the bounded creation loop against the
held parent handle. -/
def createTempDirInVerifiedParent (parentDir : List Nat)
    (ps : Option TempParentDirState) (w : CreateDirWorld) :
    Except GoError (List Nat) × List (List Nat) :=
  match ps with
  | none => (.error .bundledTempParentStateInvalid, [])
  | some st =>
      if !st.hasHandle then (.error .bundledTempParentStateInvalid, [])
      else createTempDirLoop parentDir ps w 0 tempDirNameAttempts

/-- Stepping the loop past a block of colliding attempts. -/
theorem createTempDirLoop_skip_collisions (parentDir : List Nat)
    (ps : Option TempParentDirState) (w : CreateDirWorld) :
    ∀ (fuel k i : Nat), k ≤ fuel →
      (∀ j, j < k → w.mkdirat (i + j) = .eexist) →
      createTempDirLoop parentDir ps w i fuel =
        createTempDirLoop parentDir ps w (i + k) (fuel - k) := by
  intro fuel
  induction fuel with
  | zero =>
      intro k i hk _
      interval_cases k
      rfl
  | succ n ih =>
      intro k i hk hcoll
      cases k with
      | zero => rfl
      | succ m =>
          have h0 : w.mkdirat i = .eexist := by
            have := hcoll 0 (Nat.succ_pos m)
            simpa using this
          have step : createTempDirLoop parentDir ps w i (n + 1) =
              createTempDirLoop parentDir ps w (i + 1) n := by
            simp [createTempDirLoop, h0]
          rw [step]
          have harg : i + (m + 1) = (i + 1) + m := by omega
          have hfuel : n + 1 - (m + 1) = n - m := by omega
          rw [harg, hfuel]
          exact ih m (i + 1) (Nat.le_of_succ_le_succ hk)
            (fun j hj => by
              have := hcoll (j + 1) (Nat.succ_lt_succ hj)
              simpa [Nat.add_comm, Nat.add_assoc, Nat.add_left_comm] using this)

/-- C6. Staging-directory creation beneath the verified parent handle,
with per-attempt fresh names: (1) 256 consecutive collisions exhaust the
attempt bound and fail with the exhaustion sentinel; (2) a non-collision OS
error at any attempt is immediately fatal; (3) after a successful creation
at attempt `k` the captured parent identity is re-validated through
`verifyTempParentDirUnchanged`, and when it passes, the directory named by
attempt `k`'s fresh suffix is returned and remains on disk; (4) when the
re-validation fails, the just-created directory is removed again and the
call fails with that validation error instead of returning a path. -/
theorem createTempDirInVerifiedParent_spec (parentDir : List Nat)
    (st : TempParentDirState) (w : CreateDirWorld)
    (hh : st.hasHandle = true) :
    ((∀ i, i < 256 → w.mkdirat i = .eexist) →
      createTempDirInVerifiedParent parentDir (some st) w =
        (.error .tempDirNameAttemptsExhausted, [])) ∧
    (∀ k, k < 256 → (∀ i, i < k → w.mkdirat i = .eexist) →
      w.mkdirat k = .fail →
      createTempDirInVerifiedParent parentDir (some st) w =
        (.error .osError, [])) ∧
    (∀ k, k < 256 → (∀ i, i < k → w.mkdirat i = .eexist) →
      w.mkdirat k = .ok →
      verifyTempParentDirUnchanged (some st) (w.obsAfter k) = .ok () →
      createTempDirInVerifiedParent parentDir (some st) w =
        (.ok (goFilepathJoin parentDir (w.name k)), [w.name k])) ∧
    (∀ k e, k < 256 → (∀ i, i < k → w.mkdirat i = .eexist) →
      w.mkdirat k = .ok →
      verifyTempParentDirUnchanged (some st) (w.obsAfter k) = .error e →
      createTempDirInVerifiedParent parentDir (some st) w =
        (.error e, [])) := by
  have hstart : createTempDirInVerifiedParent parentDir (some st) w =
      createTempDirLoop parentDir (some st) w 0 256 := by
    simp [createTempDirInVerifiedParent, hh, tempDirNameAttempts]
  refine ⟨?_, ?_, ?_, ?_⟩
  · intro hcoll
    rw [hstart, createTempDirLoop_skip_collisions parentDir (some st) w 256 256 0
      (Nat.le_refl _) (fun j hj => by simpa using hcoll j hj)]
    rfl
  · intro k hk hcoll hfail
    rw [hstart, createTempDirLoop_skip_collisions parentDir (some st) w 256 k 0
      (Nat.le_of_lt hk) (fun j hj => by simpa using hcoll j hj)]
    have : 256 - k = (256 - k - 1) + 1 := by omega
    rw [this]
    simp [createTempDirLoop, hfail]
  · intro k hk hcoll hok hver
    rw [hstart, createTempDirLoop_skip_collisions parentDir (some st) w 256 k 0
      (Nat.le_of_lt hk) (fun j hj => by simpa using hcoll j hj)]
    have : 256 - k = (256 - k - 1) + 1 := by omega
    rw [this]
    simp [createTempDirLoop, hok, hver]
  · intro k e hk hcoll hok hver
    rw [hstart, createTempDirLoop_skip_collisions parentDir (some st) w 256 k 0
      (Nat.le_of_lt hk) (fun j hj => by simpa using hcoll j hj)]
    have : 256 - k = (256 - k - 1) + 1 := by omega
    rw [this]
    simp [createTempDirLoop, hok, hver]

/-- Witness for C6: a world of all collisions exhausts; a world whose first
attempt succeeds with a clean re-validation returns that attempt's name;
one whose first attempt succeeds but whose re-validation sees a different
inode fails and leaves nothing on disk. -/
theorem createTempDirInVerifiedParent_spec_witness :
    createTempDirInVerifiedParent (goStr "/cache/gh-mcp")
        (some ⟨some ⟨false, true, 1000, 0o700, 7⟩, true⟩)
        ⟨fun _ => goStr "gh-mcp-server-aa", fun _ => .eexist,
         fun _ => ⟨.ok ⟨false, true, 1000, 0o700, 7⟩, .ok ⟨false, true, 1000, 0o700, 7⟩⟩⟩ =
      (.error .tempDirNameAttemptsExhausted, []) ∧
    createTempDirInVerifiedParent (goStr "/cache/gh-mcp")
        (some ⟨some ⟨false, true, 1000, 0o700, 7⟩, true⟩)
        ⟨fun _ => goStr "gh-mcp-server-aa", fun _ => .ok,
         fun _ => ⟨.ok ⟨false, true, 1000, 0o700, 7⟩, .ok ⟨false, true, 1000, 0o700, 7⟩⟩⟩ =
      (.ok (goStr "/cache/gh-mcp/gh-mcp-server-aa"), [goStr "gh-mcp-server-aa"]) ∧
    createTempDirInVerifiedParent (goStr "/cache/gh-mcp")
        (some ⟨some ⟨false, true, 1000, 0o700, 7⟩, true⟩)
        ⟨fun _ => goStr "gh-mcp-server-aa", fun _ => .ok,
         fun _ => ⟨.ok ⟨false, true, 1000, 0o700, 8⟩, .ok ⟨false, true, 1000, 0o700, 7⟩⟩⟩ =
      (.error .bundledTempParentInsecure, []) := by
  refine ⟨?_, ?_, ?_⟩
  · exact (createTempDirInVerifiedParent_spec (goStr "/cache/gh-mcp")
      ⟨some ⟨false, true, 1000, 0o700, 7⟩, true⟩ _ rfl).1 (fun _ _ => rfl)
  · exact ((createTempDirInVerifiedParent_spec (goStr "/cache/gh-mcp")
      ⟨some ⟨false, true, 1000, 0o700, 7⟩, true⟩ _ rfl).2.2.1) 0 (by omega)
      (fun i hi => absurd hi (Nat.not_lt_zero i)) rfl rfl
  · exact ((createTempDirInVerifiedParent_spec (goStr "/cache/gh-mcp")
      ⟨some ⟨false, true, 1000, 0o700, 7⟩, true⟩ _ rfl).2.2.2) 0
      .bundledTempParentInsecure (by omega)
      (fun i hi => absurd hi (Nat.not_lt_zero i)) rfl rfl

/-! ## Staging-directory cleanup and the system-temp fallback (tempdir.go,
server.go)

On-disk state relevant to cleanup is modelled as the list of paths that
exist; `os.RemoveAll dir` removes `dir` and every path below it. -/

/-- Is `p` the directory `d` itself or a path beneath it? -/
def pathWithin (d p : List Nat) : Bool :=
  p == d || p.take (d.length + 1) == d ++ goStr "/"

/-- `os.RemoveAll d`: delete `d` and everything under it. -/
def removeAllFrom (d : List Nat) (disk : List (List Nat)) : List (List Nat) :=
  disk.filter (fun p => !pathWithin d p)

/-- The cleanup closure `createTempDir` attaches to a staging directory
created beneath a verified parent: first re-validate the captured parent
state; if that fails, return without deleting anything; otherwise
`os.RemoveAll` the staging directory. -/
def stagingDirCleanup (ps : Option TempParentDirState) (obs : FsObservation)
    (tmpDir : List Nat) (disk : List (List Nat)) : List (List Nat) :=
  match verifyTempParentDirUnchanged ps obs with
  | .error _ => disk
  | .ok _ => removeAllFrom tmpDir disk

/-- C7. The verified-parent cleanup action runs the captured-state
re-validation first, and whenever that re-validation fails — in particular
whenever the fresh `lstat` of the parent path reports a device+inode
identity different from the held handle's — it deletes nothing: the disk,
including the staging directory and everything under it, is unchanged. -/
theorem stagingDirCleanup_no_deletion_on_parent_change
    (ps : Option TempParentDirState) (obs : FsObservation)
    (tmpDir : List Nat) (disk : List (List Nat)) :
    (∀ e, verifyTempParentDirUnchanged ps obs = .error e →
      stagingDirCleanup ps obs tmpDir disk = disk) ∧
    (∀ (st : TempParentDirState) (baseline current : FileInfo),
      ps = some st → st.info.isSome → st.hasHandle = true →
      obs.lstat = .ok current → obs.handleStat = .ok baseline →
      baseline.ident ≠ current.ident →
      stagingDirCleanup ps obs tmpDir disk = disk) := by
  constructor
  · intro e herr
    simp [stagingDirCleanup, herr]
  · intro st baseline current hps hinfo hhandle hlstat hhstat hident
    obtain ⟨bi, hbi⟩ := Option.isSome_iff_exists.mp hinfo
    have hver : ∃ e, verifyTempParentDirUnchanged ps obs = .error e := by
      subst hps
      simp [verifyTempParentDirUnchanged, hbi, hlstat, hhandle, hhstat]
      cases hval : validateTempParentDirInfo current with
      | error e => exact ⟨e, rfl⟩
      | ok _ =>
          have : sameFile baseline current = false := by
            simp [sameFile, hident]
          simp [this]
    obtain ⟨e, he⟩ := hver
    simp [stagingDirCleanup, he]

/-- Witness for C7: with a captured parent of inode 7 but a cleanup-time
lstat seeing inode 8, the staging directory and its contents survive the
cleanup untouched. -/
theorem stagingDirCleanup_no_deletion_on_parent_change_witness :
    stagingDirCleanup (some ⟨some ⟨false, true, 1000, 0o700, 7⟩, true⟩)
        ⟨.ok ⟨false, true, 1000, 0o700, 8⟩, .ok ⟨false, true, 1000, 0o700, 7⟩⟩
        (goStr "/cache/gh-mcp/gh-mcp-server-aa")
        [goStr "/cache/gh-mcp/gh-mcp-server-aa",
         goStr "/cache/gh-mcp/gh-mcp-server-aa/github-mcp-server"] =
      [goStr "/cache/gh-mcp/gh-mcp-server-aa",
       goStr "/cache/gh-mcp/gh-mcp-server-aa/github-mcp-server"] :=
  (stagingDirCleanup_no_deletion_on_parent_change
      (some ⟨some ⟨false, true, 1000, 0o700, 7⟩, true⟩)
      ⟨.ok ⟨false, true, 1000, 0o700, 8⟩, .ok ⟨false, true, 1000, 0o700, 7⟩⟩
      (goStr "/cache/gh-mcp/gh-mcp-server-aa") _).2
    ⟨some ⟨false, true, 1000, 0o700, 7⟩, true⟩
    ⟨false, true, 1000, 0o700, 7⟩ ⟨false, true, 1000, 0o700, 8⟩
    rfl rfl rfl rfl rfl (by decide)

/-- The cleanup action `createTempDir` hands back: the system-temp branch
attaches an unconditional `os.RemoveAll`; the verified-parent branch
attaches the guarded cleanup carrying the captured parent state. -/
inductive CleanupSpec where
  | unconditionalRemove (dir : List Nat)
  | guardedRemove (dir : List Nat) (ps : Option TempParentDirState)
      (parentDir : List Nat)

/-- Run a cleanup action against cleanup-time observations of the parent
path and the current disk. -/
def runCleanupSpec (c : CleanupSpec) (obs : FsObservation)
    (disk : List (List Nat)) : List (List Nat) :=
  match c with
  | .unconditionalRemove d => removeAllFrom d disk
  | .guardedRemove d ps _ => stagingDirCleanup ps obs d disk

/-- The syscall outcomes `createTempDir` consumes: the `os.MkdirTemp`
result used by the system-temp branch, the effective uid and current parent
node used by the hardening step, and the per-attempt oracles of the
creation loop. -/
structure TempDirWorld where
  sysTempResult : Except GoError (List Nat)
  euid : Nat
  parentNode : FileInfo
  createWorld : CreateDirWorld

/-- `createTempDir`: the empty parent candidate means the system temp root
— `os.MkdirTemp("", "gh-mcp-server-*")` with an unconditional `RemoveAll`
cleanup; a non-empty candidate runs the secure-parent pipeline and attaches
the guarded cleanup carrying the captured parent state. -/
def createTempDir (parentDir : List Nat) (w : TempDirWorld) :
    Except GoError (List Nat × CleanupSpec) :=
  if parentDir = [] then
    match w.sysTempResult with
    | .error _ => .error .osError
    | .ok tmpDir => .ok (tmpDir, .unconditionalRemove tmpDir)
  else
    match ensureSecureTempParentDir w.euid w.parentNode with
    | .error e => .error e
    | .ok (parentState, _) =>
        match (createTempDirInVerifiedParent parentDir (some parentState)
            w.createWorld).1 with
        | .error e => .error e
        | .ok tmpDir => .ok (tmpDir, .guardedRemove tmpDir (some parentState) parentDir)

/-- `bundledServerTempParentDirs`: the cache-dir candidate (when
`os.UserCacheDir` succeeds with a non-empty path) followed by the
empty-string system-temp fallback candidate. -/
def bundledServerTempParentDirs (userCacheDir : Except GoError (List Nat)) :
    List (List Nat) :=
  (match userCacheDir with
   | .ok cacheDir => if cacheDir ≠ [] then [goFilepathJoin cacheDir (goStr "gh-mcp")] else []
   | .error _ => []) ++ [[]]

/-- C10. The empty-string parent candidate — present as the final fallback
in every candidate list `bundledServerTempParentDirs` produces — creates
the staging directory in the system temp root with an *unconditional*
cleanup: running that cleanup recursively removes the directory for every
possible cleanup-time observation of the filesystem, with no captured
parent state consulted, unlike the guarded verified-parent cleanup. -/
theorem createTempDir_system_temp_unconditional_cleanup :
    (∀ (w : TempDirWorld) (tmpDir : List Nat), w.sysTempResult = .ok tmpDir →
      createTempDir [] w = .ok (tmpDir, .unconditionalRemove tmpDir)) ∧
    (∀ (d : List Nat) (obs obs' : FsObservation) (disk : List (List Nat)),
      runCleanupSpec (.unconditionalRemove d) obs disk = removeAllFrom d disk ∧
      runCleanupSpec (.unconditionalRemove d) obs disk =
        runCleanupSpec (.unconditionalRemove d) obs' disk) ∧
    (∀ userCacheDir, (bundledServerTempParentDirs userCacheDir).getLast? = some []) := by
  refine ⟨?_, ?_, ?_⟩
  · intro w tmpDir hok
    simp [createTempDir, hok]
  · intro d obs obs' disk
    exact ⟨rfl, rfl⟩
  · intro userCacheDir
    cases userCacheDir with
    | error _ => rfl
    | ok cacheDir =>
        by_cases h : cacheDir = []
        · simp [bundledServerTempParentDirs, h]
        · simp [bundledServerTempParentDirs, h]

/-- Witness for C10: a concrete world whose `MkdirTemp` yields
`/tmp/gh-mcp-server-1` produces that directory with the unconditional
cleanup action. -/
theorem createTempDir_system_temp_unconditional_cleanup_witness :
    createTempDir []
        ⟨.ok (goStr "/tmp/gh-mcp-server-1"), 1000, ⟨false, true, 1000, 0o700, 7⟩,
         ⟨fun _ => goStr "gh-mcp-server-aa", fun _ => .eexist,
          fun _ => ⟨.ok ⟨false, true, 1000, 0o700, 7⟩, .ok ⟨false, true, 1000, 0o700, 7⟩⟩⟩⟩ =
      .ok (goStr "/tmp/gh-mcp-server-1",
           .unconditionalRemove (goStr "/tmp/gh-mcp-server-1")) :=
  createTempDir_system_temp_unconditional_cleanup.1
    ⟨.ok (goStr "/tmp/gh-mcp-server-1"), 1000, ⟨false, true, 1000, 0o700, 7⟩,
     ⟨fun _ => goStr "gh-mcp-server-aa", fun _ => .eexist,
      fun _ => ⟨.ok ⟨false, true, 1000, 0o700, 7⟩, .ok ⟨false, true, 1000, 0o700, 7⟩⟩⟩⟩
    (goStr "/tmp/gh-mcp-server-1") rfl

/-! ## Supervisor exit normalization (server.go)

`cmd.Wait` returns `nil` on a zero exit, an `*exec.ExitError` carrying the
numeric status on a non-zero exit, and some other error when the OS loses
track of the process; that sum is `Option WaitError`. The supervisor's
select races the wait channel against the cancellation context; what it
observes is either "the process exited first, with the context already
cancelled or not at that moment" or "cancellation fired first" — the
`ExitRace` type. In the cancellation-first arm `stopServerProcess` signals,
waits out the grace window, kills, and drains the wait channel; its result
is discarded and the supervisor returns success. -/

/-- The `cmd.Wait` error: an `*exec.ExitError` with the numeric exit code,
or any other wait failure. -/
inductive WaitError where
  | exitError (code : Int)
  | otherError
  deriving DecidableEq, Repr

/-- What the supervisor's select observes. -/
inductive ExitRace where
  | exitedFirst (waitErr : Option WaitError) (ctxAlreadyDone : Bool)
  | cancelledFirst
  deriving DecidableEq, Repr

/-- `normalizeServerExit`: `nil` stays success; an `*exec.ExitError`
becomes the `ErrServerNonZeroExit` sentinel carrying the exit code; any
other wait error becomes the distinct wrapped wait-failure error. -/
def normalizeServerExit (err : Option WaitError) : Option GoError :=
  match err with
  | none => none
  | some (.exitError code) => some (.serverNonZeroExit code)
  | some .otherError => some .waitFailure

/-- `waitForServerExit`: if the process exits first, prefer clean-shutdown
semantics — return success when the context is already cancelled, else
normalize the wait error; if cancellation fires first, stop the process and
return success. -/
def waitForServerExit (race : ExitRace) : Option GoError :=
  match race with
  | .exitedFirst waitErr ctxAlreadyDone =>
      if ctxAlreadyDone then none else normalizeServerExit waitErr
  | .cancelledFirst => none

/-- C8. Exit normalization: a zero exit (nil wait error) is success whether
or not cancellation fired; any exit observed after cancellation has already
fired is success; a cancellation-first observation is success; a non-zero,
non-cancelled exit is exactly the typed non-zero-exit error carrying the
numeric code; any other non-cancelled wait failure is the distinct typed
wait-failure error, which no non-zero-exit error equals. -/
theorem waitForServerExit_normalization (code : Int) (w : Option WaitError)
    (c : Bool) :
    waitForServerExit (.exitedFirst none c) = none ∧
    waitForServerExit (.exitedFirst w true) = none ∧
    waitForServerExit .cancelledFirst = none ∧
    waitForServerExit (.exitedFirst (some (.exitError code)) false) =
      some (.serverNonZeroExit code) ∧
    waitForServerExit (.exitedFirst (some .otherError) false) =
      some .waitFailure ∧
    GoError.serverNonZeroExit code ≠ GoError.waitFailure := by
  refine ⟨?_, rfl, rfl, rfl, rfl, by simp⟩
  cases c <;> rfl

/-- Witness for C8: a non-zero exit with code 9, observed without prior
cancellation, surfaces as the typed non-zero-exit error carrying 9. -/
theorem waitForServerExit_normalization_witness :
    waitForServerExit (.exitedFirst (some (.exitError 9)) false) =
      some (.serverNonZeroExit 9) :=
  (waitForServerExit_normalization 9 none true).2.2.2.1

/-! ## Child process environment (server.go) -/

/-- `allowedParentEnvKeys`: the fixed allow-list of parent environment
variables forwarded to the child. -/
def allowedParentEnvKeys : List (List Nat) :=
  [goStr "PATH", goStr "HOME", goStr "USERPROFILE", goStr "TMPDIR",
   goStr "TMP", goStr "TEMP", goStr "SHELL", goStr "COMSPEC",
   goStr "SYSTEMROOT", goStr "WINDIR",
   goStr "HTTP_PROXY", goStr "HTTPS_PROXY", goStr "NO_PROXY", goStr "ALL_PROXY",
   goStr "http_proxy", goStr "https_proxy", goStr "no_proxy", goStr "all_proxy",
   goStr "SSL_CERT_FILE", goStr "SSL_CERT_DIR"]

/-- `strings.Cut item "="`: split at the first `=` byte; `none` when no
`=` occurs (Go's `found = false`). -/
def goCutEq : List Nat → Option (List Nat × List Nat)
  | [] => none
  | c :: rest =>
      if c == 61 then some ([], rest)
      else
        match goCutEq rest with
        | some (k, v) => some (c :: k, v)
        | none => none

/-- The `merged` map and `order` slice of `buildChildProcessEnv` in one
association list: first-insertion order, latest value per key. -/
def addEnvEntry (st : List (List Nat × List Nat)) (k v : List Nat) :
    List (List Nat × List Nat) :=
  if st.any (fun p => p.1 == k) then
    st.map (fun p => if p.1 == k then (p.1, v) else p)
  else
    st ++ [(k, v)]

/-- The first loop of `buildChildProcessEnv`: fold the required items into
the map, skipping items without `=` or with an empty key. -/
def foldRequiredEnv (st0 : List (List Nat × List Nat))
    (required : List (List Nat)) : List (List Nat × List Nat) :=
  required.foldl
    (fun st item =>
      match goCutEq item with
      | none => st
      | some (k, v) => if k = [] then st else addEnvEntry st k v)
    st0

/-- The second loop of `buildChildProcessEnv`: for each allow-listed key
not already present, pull the parent environment's value when it is set.
The parent environment is the `os.LookupEnv` map. -/
def foldAllowedParentEnv (st0 : List (List Nat × List Nat))
    (keys : List (List Nat)) (parentEnv : List Nat → Option (List Nat)) :
    List (List Nat × List Nat) :=
  keys.foldl
    (fun st key =>
      if st.any (fun p => p.1 == key) then st
      else
        match parentEnv key with
        | some v => addEnvEntry st key v
        | none => st)
    st0

/-- The pair list `buildChildProcessEnv` assembles before serialising to
`key=value` strings: the required fold from the empty map, then the
allow-list fold. -/
def buildChildProcessEnvPairs (required : List (List Nat))
    (parentEnv : List Nat → Option (List Nat)) : List (List Nat × List Nat) :=
  foldAllowedParentEnv (foldRequiredEnv [] required) allowedParentEnvKeys parentEnv

/-- `buildChildProcessEnv`: the assembled pairs serialised back to
`key=value` byte strings in first-insertion order. -/
def buildChildProcessEnv (required : List (List Nat))
    (parentEnv : List Nat → Option (List Nat)) : List (List Nat) :=
  (buildChildProcessEnvPairs required parentEnv).map
    (fun p => p.1 ++ [61] ++ p.2)

/-- Association-list lookup by key (the value a key maps to in the child
environment). -/
def envLookup : List (List Nat × List Nat) → List Nat → Option (List Nat)
  | [], _ => none
  | p :: rest, k => if p.1 == k then some p.2 else envLookup rest k

/-- The value the required list itself assigns to a key: the last
well-formed `key=value` item for it (later required items overwrite
earlier ones in the Go map), `none` when the key is not a required key. -/
def requiredValue : List (List Nat) → List Nat → Option (List Nat)
  | [], _ => none
  | item :: rest, k =>
      match requiredValue rest k with
      | some v => some v
      | none =>
          match goCutEq item with
          | none => none
          | some (k', v) => if k' = [] then none else if k' = k then some v else none

/-- Updating the value at key `k` in place: the looked-up value at `k`
becomes `v` when `k` was present, and other keys are untouched. -/
theorem envLookup_update (st : List (List Nat × List Nat)) (k v k' : List Nat) :
    envLookup (st.map (fun p => if p.1 == k then (p.1, v) else p)) k' =
      if k' = k then (envLookup st k).map (fun _ => v) else envLookup st k' := by
  induction st with
  | nil => by_cases hk' : k' = k <;> simp [envLookup, hk']
  | cons p rest ih =>
      by_cases hp' : p.1 = k'
      · by_cases hk' : k' = k
        · have hpk : (p.1 == k) = true := by simp [hp', hk']
          simp [envLookup, hpk, hp', hk']
        · have hpk : (p.1 == k) = false := by
            simp only [beq_eq_false_iff_ne, Ne]
            exact fun h => hk' (by rw [← hp', h])
          simp [envLookup, hpk, hp', hk']
      · have hp'b : (p.1 == k') = false := by simpa using hp'
        by_cases hpk : p.1 = k
        · have hk' : ¬ k' = k := fun h => hp' (by rw [hpk, h])
          have hpkb : (p.1 == k) = true := by simp [hpk]
          simp only [List.map_cons, hpkb, if_true, envLookup, hp'b,
            Bool.false_eq_true, if_false, hk', ih]
        · have hpkb : (p.1 == k) = false := by simpa using hpk
          by_cases hk' : k' = k <;>
            · simp [envLookup, hpkb, hp'b, hk'] at ih ⊢
              exact ih

/-- Appending a binding for a fresh key: it answers lookups for `k` when
nothing earlier does, and leaves other keys untouched. -/
theorem envLookup_append_single (st : List (List Nat × List Nat))
    (k v k' : List Nat) :
    envLookup (st ++ [(k, v)]) k' =
      (envLookup st k').or (if k' = k then some v else none) := by
  induction st with
  | nil =>
      by_cases hk' : k' = k
      · simp [envLookup, hk']
      · have : (k == k') = false := by
          simp only [beq_eq_false_iff_ne, Ne]
          exact fun h => hk' h.symm
        simp [envLookup, this, hk']
  | cons p rest ih =>
      by_cases hp' : p.1 = k'
      · have : (p.1 == k') = true := by simp [hp']
        simp [envLookup, this]
      · have : (p.1 == k') = false := by simpa using hp'
        simp [envLookup, this, ih]

/-- A key the `any` membership probe misses has no binding. -/
theorem envLookup_eq_none_of_not_any (st : List (List Nat × List Nat))
    (k : List Nat) (h : st.any (fun p => p.1 == k) = false) :
    envLookup st k = none := by
  induction st with
  | nil => rfl
  | cons p rest ih =>
      simp only [List.any_cons, Bool.or_eq_false_iff] at h
      simp [envLookup, h.1, ih h.2]

/-- A key the `any` membership probe finds has a binding. -/
theorem envLookup_isSome_of_any (st : List (List Nat × List Nat))
    (k : List Nat) (h : st.any (fun p => p.1 == k) = true) :
    (envLookup st k).isSome := by
  induction st with
  | nil => simp at h
  | cons p rest ih =>
      simp only [List.any_cons, Bool.or_eq_true] at h
      rcases h with h | h
      · simp [envLookup, h]
      · by_cases hp : (p.1 == k) = true
        · simp [envLookup, hp]
        · have hp' : (p.1 == k) = false := by simpa using hp
          simp [envLookup, hp', ih h]

/-- Looking up after `addEnvEntry`: the added key now maps to the new
value, every other key is untouched. -/
theorem envLookup_addEnvEntry (st : List (List Nat × List Nat))
    (k v k' : List Nat) :
    envLookup (addEnvEntry st k v) k' =
      if k' = k then some v else envLookup st k' := by
  unfold addEnvEntry
  by_cases hmem : st.any (fun p => p.1 == k)
  · simp only [hmem, if_true]
    rw [envLookup_update]
    by_cases hk' : k' = k
    · obtain ⟨w, hw⟩ := Option.isSome_iff_exists.mp (envLookup_isSome_of_any st k hmem)
      simp [hk', hw]
    · simp [hk']
  · simp only [Bool.not_eq_true] at hmem
    simp only [hmem, Bool.false_eq_true, if_false]
    rw [envLookup_append_single]
    by_cases hk' : k' = k
    · simp [hk', envLookup_eq_none_of_not_any st k hmem]
    · simp [hk']

/-- A key present after `addEnvEntry` was present before or is the added
key. -/
theorem envKey_addEnvEntry (st : List (List Nat × List Nat)) (k v k' : List Nat)
    (h : (envLookup (addEnvEntry st k v) k').isSome) :
    (envLookup st k').isSome ∨ k' = k := by
  rw [envLookup_addEnvEntry] at h
  by_cases hk' : k' = k
  · exact Or.inr hk'
  · rw [if_neg hk'] at h
    exact Or.inl h

/-- What the required fold leaves at a key: the required list's own (last)
value for it, falling back to the map it started from. -/
theorem envLookup_foldRequiredEnv (required : List (List Nat)) :
    ∀ (st0 : List (List Nat × List Nat)) (k : List Nat),
      envLookup (foldRequiredEnv st0 required) k =
        match requiredValue required k with
        | some v => some v
        | none => envLookup st0 k := by
  induction required with
  | nil => intro st0 k; rfl
  | cons item rest ih =>
      intro st0 k
      have hstep : foldRequiredEnv st0 (item :: rest) =
          foldRequiredEnv
            (match goCutEq item with
             | none => st0
             | some (k', v) => if k' = [] then st0 else addEnvEntry st0 k' v)
            rest := by
        simp [foldRequiredEnv]
      rw [hstep, ih]
      cases hrest : requiredValue rest k with
      | some v => simp [requiredValue, hrest]
      | none =>
          cases hcut : goCutEq item with
          | none => simp [requiredValue, hrest, hcut]
          | some kv =>
              by_cases hk0 : kv.1 = []
              · simp [requiredValue, hrest, hcut, hk0]
              · by_cases hkk : kv.1 = k
                · have hk0' : ¬ k = [] := by rw [← hkk]; exact hk0
                  simp [requiredValue, hrest, hcut, hk0, hkk,
                    envLookup_addEnvEntry, hk0']
                · have : ¬ k = kv.1 := fun h => hkk h.symm
                  simp [requiredValue, hrest, hcut, hk0, hkk,
                    envLookup_addEnvEntry, this]

/-- The allow-list fold never disturbs a key that already has a value. -/
theorem envLookup_foldAllowedParentEnv_preserved (keys : List (List Nat))
    (parentEnv : List Nat → Option (List Nat)) :
    ∀ (st : List (List Nat × List Nat)) (k : List Nat),
      (envLookup st k).isSome →
      envLookup (foldAllowedParentEnv st keys parentEnv) k = envLookup st k := by
  induction keys with
  | nil => intro st k _; rfl
  | cons key rest ih =>
      intro st k hk
      by_cases hmem : st.any (fun p => p.1 == key)
      · have hstep : foldAllowedParentEnv st (key :: rest) parentEnv =
            foldAllowedParentEnv st rest parentEnv := by
          simp [foldAllowedParentEnv, hmem]
        rw [hstep]
        exact ih st k hk
      · have hmem' : st.any (fun p => p.1 == key) = false := Bool.eq_false_iff.mpr hmem
        cases hpe : parentEnv key with
        | none =>
            have hstep : foldAllowedParentEnv st (key :: rest) parentEnv =
                foldAllowedParentEnv st rest parentEnv := by
              simp [foldAllowedParentEnv, hmem', hpe]
            rw [hstep]
            exact ih st k hk
        | some v =>
            have hstep : foldAllowedParentEnv st (key :: rest) parentEnv =
                foldAllowedParentEnv (addEnvEntry st key v) rest parentEnv := by
              simp [foldAllowedParentEnv, hmem', hpe]
            have hkne : ¬ k = key := by
              intro h
              rw [h, envLookup_eq_none_of_not_any st key hmem'] at hk
              simp at hk
            have hpres : envLookup (addEnvEntry st key v) k = envLookup st k := by
              rw [envLookup_addEnvEntry, if_neg hkne]
            rw [hstep, ih (addEnvEntry st key v) k (hpres ▸ hk), hpres]

/-- A key present after the allow-list fold was present before or is one of
the folded keys. -/
theorem envKey_foldAllowedParentEnv (keys : List (List Nat))
    (parentEnv : List Nat → Option (List Nat)) :
    ∀ (st : List (List Nat × List Nat)) (k : List Nat),
      (envLookup (foldAllowedParentEnv st keys parentEnv) k).isSome →
      (envLookup st k).isSome ∨ k ∈ keys := by
  induction keys with
  | nil => intro st k h; exact Or.inl h
  | cons key rest ih =>
      intro st k h
      by_cases hmem : st.any (fun p => p.1 == key)
      · have hstep : foldAllowedParentEnv st (key :: rest) parentEnv =
            foldAllowedParentEnv st rest parentEnv := by
          simp [foldAllowedParentEnv, hmem]
        rw [hstep] at h
        rcases ih st k h with h' | h'
        · exact Or.inl h'
        · exact Or.inr (List.mem_cons_of_mem _ h')
      · have hmem' : st.any (fun p => p.1 == key) = false := Bool.eq_false_iff.mpr hmem
        cases hpe : parentEnv key with
        | none =>
            have hstep : foldAllowedParentEnv st (key :: rest) parentEnv =
                foldAllowedParentEnv st rest parentEnv := by
              simp [foldAllowedParentEnv, hmem', hpe]
            rw [hstep] at h
            rcases ih st k h with h' | h'
            · exact Or.inl h'
            · exact Or.inr (List.mem_cons_of_mem _ h')
        | some v =>
            have hstep : foldAllowedParentEnv st (key :: rest) parentEnv =
                foldAllowedParentEnv (addEnvEntry st key v) rest parentEnv := by
              simp [foldAllowedParentEnv, hmem', hpe]
            rw [hstep] at h
            rcases ih (addEnvEntry st key v) k h with h' | h'
            · rcases envKey_addEnvEntry st key v k h' with h'' | h''
              · exact Or.inl h''
              · exact Or.inr (h'' ▸ List.mem_cons_self _ _)
            · exact Or.inr (List.mem_cons_of_mem _ h')

/-- C9. The child environment: every required key maps to the value the
required list assigns it, no matter what colliding values the parent
environment holds; and every key that appears at all is either a required
key or a member of the fixed parent allow-list. -/
theorem buildChildProcessEnv_spec (required : List (List Nat))
    (parentEnv : List Nat → Option (List Nat)) :
    (∀ k, requiredValue required k ≠ none →
      envLookup (buildChildProcessEnvPairs required parentEnv) k =
        requiredValue required k) ∧
    (∀ k, (envLookup (buildChildProcessEnvPairs required parentEnv) k).isSome →
      requiredValue required k ≠ none ∨ k ∈ allowedParentEnvKeys) := by
  constructor
  · intro k hreq
    obtain ⟨v, hv⟩ := Option.ne_none_iff_exists'.mp hreq
    have hafter1 : envLookup (foldRequiredEnv [] required) k = some v := by
      rw [envLookup_foldRequiredEnv, hv]
    have := envLookup_foldAllowedParentEnv_preserved allowedParentEnvKeys
      parentEnv (foldRequiredEnv [] required) k (by rw [hafter1]; rfl)
    rw [buildChildProcessEnvPairs, this, hafter1, hv]
  · intro k hk
    rcases envKey_foldAllowedParentEnv allowedParentEnvKeys parentEnv
        (foldRequiredEnv [] required) k hk with h | h
    · left
      rw [envLookup_foldRequiredEnv] at h
      cases hv : requiredValue required k with
      | some v => simp [hv]
      | none => rw [hv] at h; simp [envLookup] at h
    · exact Or.inr h

/-- Witness for C9: with `PATH` required as `/required` and a parent
environment that holds a colliding `PATH` and a `HOME`, the built
environment maps `PATH` to the required value, and `HOME`'s presence is
accounted for by the allow-list. -/
theorem buildChildProcessEnv_spec_witness :
    envLookup
        (buildChildProcessEnvPairs [goStr "PATH=/required"]
          (fun k => if k = goStr "PATH" then some (goStr "/parent")
                    else if k = goStr "HOME" then some (goStr "/home/u") else none))
        (goStr "PATH") = some (goStr "/required") ∧
    (requiredValue [goStr "PATH=/required"] (goStr "HOME") ≠ none ∨
      goStr "HOME" ∈ allowedParentEnvKeys) := by
  constructor
  · have h := (buildChildProcessEnv_spec [goStr "PATH=/required"]
      (fun k => if k = goStr "PATH" then some (goStr "/parent")
                else if k = goStr "HOME" then some (goStr "/home/u") else none)).1
      (goStr "PATH") (by decide)
    rw [h]
    decide
  · exact (buildChildProcessEnv_spec [goStr "PATH=/required"]
      (fun k => if k = goStr "PATH" then some (goStr "/parent")
                else if k = goStr "HOME" then some (goStr "/home/u") else none)).2
      (goStr "HOME") (by decide)

/-! ## Credential environment values (spec §6)

The README's error catalog documents an "invalid server environment value"
failure for forwarded values containing a line break or NUL byte, but the
validation routine itself is not among the provided sources — only its
callers (`runBundledServer` / `buildChildProcessEnv`) are. It is therefore
modelled from the spec. -/

/-- Modelled from the spec: the missing validation of credential
environment values — "it must reject (not silently truncate) any value
containing a NUL byte or line break before handing it to process
creation". A value containing byte 0, 10 (LF) or 13 (CR) is rejected;
any other value passes through unchanged. -/
def validateServerEnvValue (value : List Nat) : Except GoError (List Nat) :=
  if value.any (fun b => b == 0 || b == 10 || b == 13) then
    .error .invalidServerEnvValue
  else
    .ok value

/-- Modelled from the spec: the credential collaborator's host and token
folded into the child environment list (the `GITHUB_PERSONAL_ACCESS_TOKEN`
and `GITHUB_HOST` required entries of `runWithRunner`), with each
credential value validated before the environment reaches process
creation. -/
def buildValidatedServerEnv (host token : List Nat)
    (parentEnv : List Nat → Option (List Nat)) :
    Except GoError (List (List Nat)) :=
  match validateServerEnvValue token with
  | .error e => .error e
  | .ok tokenValue =>
      match validateServerEnvValue host with
      | .error e => .error e
      | .ok hostValue =>
          .ok (buildChildProcessEnv
            [goStr "GITHUB_PERSONAL_ACCESS_TOKEN=" ++ tokenValue,
             goStr "GITHUB_HOST=" ++ hostValue]
            parentEnv)

/-- C2. A credential value (host or token) containing a NUL byte or a line
break is rejected with the invalid-value error before any environment list
for process creation is produced; and whenever an environment list *is*
produced, it is built from the full, untruncated host and token values. -/
theorem buildValidatedServerEnv_rejects_control_bytes
    (host token : List Nat) (parentEnv : List Nat → Option (List Nat)) :
    ((0 ∈ host ∨ 10 ∈ host ∨ 13 ∈ host ∨ 0 ∈ token ∨ 10 ∈ token ∨ 13 ∈ token) →
      buildValidatedServerEnv host token parentEnv =
        .error .invalidServerEnvValue) ∧
    (∀ env, buildValidatedServerEnv host token parentEnv = .ok env →
      env = buildChildProcessEnv
        [goStr "GITHUB_PERSONAL_ACCESS_TOKEN=" ++ token,
         goStr "GITHUB_HOST=" ++ host]
        parentEnv) := by
  constructor
  · intro hbad
    have hany : ∀ (l : List Nat), (0 ∈ l ∨ 10 ∈ l ∨ 13 ∈ l) →
        l.any (fun b => b == 0 || b == 10 || b == 13) = true := by
      intro l hl
      rw [List.any_eq_true]
      rcases hl with h | h | h
      · exact ⟨0, h, by simp⟩
      · exact ⟨10, h, by simp⟩
      · exact ⟨13, h, by simp⟩
    rcases hbad with h | h | h | h | h | h
    all_goals
      unfold buildValidatedServerEnv validateServerEnvValue
    · rw [hany host (Or.inl h)]
      cases htok : (token.any (fun b => b == 0 || b == 10 || b == 13)) <;> simp
    · rw [hany host (Or.inr (Or.inl h))]
      cases htok : (token.any (fun b => b == 0 || b == 10 || b == 13)) <;> simp
    · rw [hany host (Or.inr (Or.inr h))]
      cases htok : (token.any (fun b => b == 0 || b == 10 || b == 13)) <;> simp
    · rw [hany token (Or.inl h)]
      simp
    · rw [hany token (Or.inr (Or.inl h))]
      simp
    · rw [hany token (Or.inr (Or.inr h))]
      simp
  · intro env henv
    unfold buildValidatedServerEnv validateServerEnvValue at henv
    by_cases htok : token.any (fun b => b == 0 || b == 10 || b == 13)
    · simp [htok] at henv
    · by_cases hhost : host.any (fun b => b == 0 || b == 10 || b == 13)
      · simp [htok, hhost] at henv
      · simp [htok, hhost] at henv
        exact henv.symm

/-- Witness for C2: a host with an embedded line feed is rejected; a clean
host and token produce the environment built from the untruncated values. -/
theorem buildValidatedServerEnv_rejects_control_bytes_witness :
    buildValidatedServerEnv (goStr "github.com" ++ [10] ++ goStr "evil")
        (goStr "tok") (fun _ => none) = .error .invalidServerEnvValue ∧
    buildChildProcessEnv
        [goStr "GITHUB_PERSONAL_ACCESS_TOKEN=" ++ goStr "tok",
         goStr "GITHUB_HOST=" ++ goStr "github.com"]
        (fun _ => none) =
      buildChildProcessEnv
        [goStr "GITHUB_PERSONAL_ACCESS_TOKEN=" ++ goStr "tok",
         goStr "GITHUB_HOST=" ++ goStr "github.com"]
        (fun _ => none) := by
  constructor
  · exact (buildValidatedServerEnv_rejects_control_bytes
      (goStr "github.com" ++ [10] ++ goStr "evil") (goStr "tok")
      (fun _ => none)).1 (Or.inr (Or.inl (by decide)))
  · exact ((buildValidatedServerEnv_rejects_control_bytes
      (goStr "github.com") (goStr "tok") (fun _ => none)).2
      (buildChildProcessEnv
        [goStr "GITHUB_PERSONAL_ACCESS_TOKEN=" ++ goStr "tok",
         goStr "GITHUB_HOST=" ++ goStr "github.com"]
        (fun _ => none)) rfl)

end GhMcp
